import Mathlib

/-!
Verification of the docktop monitoring-and-control engine.

This file gives a shallow embedding, in Lean 4, of the parts of the
docktop source (src/docker.rs, src/ui.rs, src/ui/util.rs, src/main.rs,
src/action.rs) that the specification's claims are about, and proves or
refutes each claim against that embedding.

Modelling conventions:
* Rust `f64` arithmetic on counter values is modelled exactly over `ℚ`
  (the values involved are integral counters and their quotients, so the
  floating-point rounding of the source is not what any claim is about).
* Rust `u64`/`usize` counters are modelled as `ℕ`; `i64` values as `ℤ`
  with an explicit wrap to the 64-bit two's-complement range where the
  source can overflow.
* Rust `&str`/`String` values are modelled as `List Char` (Rust `split`,
  `trim`, `to_lowercase`, `chars()` all operate on `char`s); where the
  source indexes by *bytes* (`&id[..12]`), UTF-8 byte widths of the
  characters are modelled explicitly.
* Byte streams are modelled as `List ℕ` of byte values; fallible reads
  become explicit length checks.
* `HashMap` values are modelled as association lists with key-overwrite
  insertion; only key membership and per-key values are relied upon.
-/

namespace Docktop

/-! ## Data model, from src/docker.rs -/

/-- Field `cpu_usage` of the daemon's stats record (src/docker.rs, struct
`CpuUsage`): cumulative total usage plus the optional per-core breakdown. -/
structure CpuUsage where
  total_usage : Nat
  percpu_usage : Option (List Nat)
deriving Repr, DecidableEq

/-- Struct `CpuStats` of src/docker.rs. -/
structure CpuStats where
  cpu_usage : CpuUsage
  system_cpu_usage : Option Nat
deriving Repr, DecidableEq

/-- Struct `MemoryStats` of src/docker.rs (the `stats` map is modelled as
an association list). -/
structure MemoryStats where
  usage : Option Nat
  limit : Option Nat
  stats : Option (List (String × Nat))
deriving Repr, DecidableEq

/-- Struct `NetworkStats` of src/docker.rs. -/
structure NetworkStats where
  rx_bytes : Nat
  tx_bytes : Nat
deriving Repr, DecidableEq

/-- Struct `ContainerStats` of src/docker.rs: one point-in-time sample,
with the daemon-embedded pre-sample in `precpu_stats`. -/
structure ContainerStats where
  cpu_stats : CpuStats
  precpu_stats : CpuStats
  memory_stats : MemoryStats
  networks : Option (List (String × NetworkStats))
deriving Repr, DecidableEq

/-! ## Rate calculators

The repository contains two implementations of the CPU-rate calculator:
`calculate_cpu_usage` in src/ui/util.rs (re-exported by src/ui/mod.rs) and
`calculate_cpu_usage` in src/ui.rs (line 1127).  They agree when a previous
sample is present and diverge when it is absent, so both are embedded. -/

namespace UiUtil

/-- Function `calculate_cpu_usage` of src/ui/util.rs lines 3-17: uses the
previous sample if present, otherwise returns `0.0` (it never reads
`precpu_stats`). -/
def calculate_cpu_usage (stats : ContainerStats) (previous_stats : Option ContainerStats) : ℚ :=
  match previous_stats with
  | none => 0
  | some prev =>
    let cpu_delta : ℚ :=
      (stats.cpu_stats.cpu_usage.total_usage : ℚ) - (prev.cpu_stats.cpu_usage.total_usage : ℚ)
    let system_delta : ℚ :=
      ((stats.cpu_stats.system_cpu_usage.getD 0 : ℕ) : ℚ)
        - ((prev.cpu_stats.system_cpu_usage.getD 0 : ℕ) : ℚ)
    if 0 < system_delta ∧ 0 < cpu_delta then
      let percpu_len : ℚ :=
        (((stats.cpu_stats.cpu_usage.percpu_usage.map List.length).getD 1 : ℕ) : ℚ)
      (cpu_delta / system_delta) * percpu_len * 100
    else 0

end UiUtil

namespace Ui

/-- Function `calculate_cpu_usage` of src/ui.rs lines 1127-1143: when no
previous sample is supplied it falls back to the sample's own
`precpu_stats` counters as the previous value. -/
def calculate_cpu_usage (stats : ContainerStats) (prev_stats : Option ContainerStats) : ℚ :=
  let prev_pair : Nat × Nat :=
    match prev_stats with
    | some prev => (prev.cpu_stats.cpu_usage.total_usage, prev.cpu_stats.system_cpu_usage.getD 0)
    | none => (stats.precpu_stats.cpu_usage.total_usage, stats.precpu_stats.system_cpu_usage.getD 0)
  let cpu_delta : ℚ := (stats.cpu_stats.cpu_usage.total_usage : ℚ) - (prev_pair.1 : ℚ)
  let system_delta : ℚ :=
    ((stats.cpu_stats.system_cpu_usage.getD 0 : ℕ) : ℚ) - (prev_pair.2 : ℚ)
  let num_cpus : ℚ :=
    (((stats.cpu_stats.cpu_usage.percpu_usage.map List.length).getD 1 : ℕ) : ℚ)
  if 0 < system_delta ∧ 0 < cpu_delta then
    (cpu_delta / system_delta) * num_cpus * 100
  else 0

end Ui

/-- The `cpu_delta` of src/ui/util.rs line 7 (equally src/ui.rs line 1135),
as a spec-level abbreviation for stating the claims. -/
def cpuDelta (cur prev : ContainerStats) : ℚ :=
  (cur.cpu_stats.cpu_usage.total_usage : ℚ) - (prev.cpu_stats.cpu_usage.total_usage : ℚ)

/-- The `system_delta` of src/ui/util.rs line 8 (equally src/ui.rs line 1136). -/
def sysDelta (cur prev : ContainerStats) : ℚ :=
  ((cur.cpu_stats.system_cpu_usage.getD 0 : ℕ) : ℚ)
    - ((prev.cpu_stats.system_cpu_usage.getD 0 : ℕ) : ℚ)

/-- The core-count multiplier `percpu_usage.map(len).unwrap_or(1)` of
src/ui/util.rs line 11 (equally src/ui.rs line 1137). -/
def numCpus (cur : ContainerStats) : ℚ :=
  (((cur.cpu_stats.cpu_usage.percpu_usage.map List.length).getD 1 : ℕ) : ℚ)

/-- Current sample of the spec's synthetic CPU-rate test:
`cpu_usage=[1000,1500]`, `system_cpu_usage=[10000,10500]`, 4 cores. -/
def c2cur : ContainerStats :=
  { cpu_stats :=
      { cpu_usage := { total_usage := 1500, percpu_usage := some [375, 375, 375, 375] }
        system_cpu_usage := some 10500 }
    precpu_stats :=
      { cpu_usage := { total_usage := 0, percpu_usage := none }
        system_cpu_usage := none }
    memory_stats := { usage := none, limit := none, stats := none }
    networks := none }

/-- Previous sample of the spec's synthetic CPU-rate test. -/
def c2prev : ContainerStats :=
  { cpu_stats :=
      { cpu_usage := { total_usage := 1000, percpu_usage := some [250, 250, 250, 250] }
        system_cpu_usage := some 10000 }
    precpu_stats :=
      { cpu_usage := { total_usage := 0, percpu_usage := none }
        system_cpu_usage := none }
    memory_stats := { usage := none, limit := none, stats := none }
    networks := none }

/-- Unfolding lemma: the src/ui/util.rs calculator on a present previous
sample, written with the spec-level delta abbreviations. -/
lemma uiUtilCalcSome (cur prev : ContainerStats) :
    UiUtil.calculate_cpu_usage cur (some prev)
      = if 0 < sysDelta cur prev ∧ 0 < cpuDelta cur prev then
          cpuDelta cur prev / sysDelta cur prev * numCpus cur * 100
        else 0 := rfl

/-- Unfolding lemma: the src/ui.rs calculator on a present previous sample. -/
lemma uiCalcSome (cur prev : ContainerStats) :
    Ui.calculate_cpu_usage cur (some prev)
      = if 0 < sysDelta cur prev ∧ 0 < cpuDelta cur prev then
          cpuDelta cur prev / sysDelta cur prev * numCpus cur * 100
        else 0 := rfl

/-- C2: when a previous sample exists, both implementations of
`calculate_cpu_usage` return `(cpu_delta / system_delta) * core_count * 100`
if both deltas are positive and `0.0` otherwise. -/
theorem cpu_percent_formula (cur prev : ContainerStats) :
    (0 < cpuDelta cur prev ∧ 0 < sysDelta cur prev →
        UiUtil.calculate_cpu_usage cur (some prev)
            = cpuDelta cur prev / sysDelta cur prev * numCpus cur * 100
          ∧ Ui.calculate_cpu_usage cur (some prev)
            = cpuDelta cur prev / sysDelta cur prev * numCpus cur * 100)
    ∧ (¬ (0 < cpuDelta cur prev ∧ 0 < sysDelta cur prev) →
        UiUtil.calculate_cpu_usage cur (some prev) = 0
          ∧ Ui.calculate_cpu_usage cur (some prev) = 0) := by
  rw [uiUtilCalcSome, uiCalcSome]
  constructor
  · intro h
    rw [if_pos ⟨h.2, h.1⟩]
    exact ⟨rfl, rfl⟩
  · intro h
    rw [if_neg (fun hc => h ⟨hc.2, hc.1⟩)]
    exact ⟨rfl, rfl⟩

/-- Witness for C2: on the spec's synthetic samples the result is exactly
`400.0`, via `cpu_percent_formula`. -/
theorem cpu_percent_formula_witness :
    UiUtil.calculate_cpu_usage c2cur (some c2prev) = 400
      ∧ Ui.calculate_cpu_usage c2cur (some c2prev) = 400 := by
  have h := (cpu_percent_formula c2cur c2prev).1
    (by norm_num [cpuDelta, sysDelta, c2cur, c2prev])
  refine ⟨?_, ?_⟩
  · rw [h.1]; norm_num [cpuDelta, sysDelta, numCpus, c2cur, c2prev]
  · rw [h.2]; norm_num [cpuDelta, sysDelta, numCpus, c2cur, c2prev]

/-- Concrete sample with distinct `precpu_stats`: current total 1500 over
system 10500, embedded pre-sample total 1000 over system 10000, 4 cores. -/
def c3stats : ContainerStats :=
  { cpu_stats :=
      { cpu_usage := { total_usage := 1500, percpu_usage := some [375, 375, 375, 375] }
        system_cpu_usage := some 10500 }
    precpu_stats :=
      { cpu_usage := { total_usage := 1000, percpu_usage := some [250, 250, 250, 250] }
        system_cpu_usage := some 10000 }
    memory_stats := { usage := none, limit := none, stats := none }
    networks := none }

/-- Counterexample to C3 as stated: at `c3stats` with no previous sample,
the `calculate_cpu_usage` of src/ui/util.rs returns `0`, whereas applying
the delta formula to the embedded pre-sample counters (what the claim says
happens, and what the src/ui.rs variant does) yields `400`. -/
theorem cpu_percent_no_previous_counterexample :
    UiUtil.calculate_cpu_usage c3stats none = 0
      ∧ Ui.calculate_cpu_usage c3stats none = 400 := by
  constructor
  · rfl
  · have h : Ui.calculate_cpu_usage c3stats none
        = Ui.calculate_cpu_usage c3stats (some { c3stats with cpu_stats := c3stats.precpu_stats }) := rfl
    rw [h, uiCalcSome, if_pos]
    · norm_num [cpuDelta, sysDelta, numCpus, c3stats]
    · norm_num [cpuDelta, sysDelta, c3stats]

/-- C3 amended: only the src/ui.rs implementation uses the embedded
pre-sample counters as the previous value when no previous sample exists
(its result equals the result with an explicit previous sample carrying the
`precpu_stats` counters); the src/ui/util.rs implementation returns `0.0`
unconditionally in that case.  In both, a pre-sample equal to the current
sample gives `0.0`. -/
theorem cpu_percent_no_previous (s : ContainerStats) :
    Ui.calculate_cpu_usage s none
        = Ui.calculate_cpu_usage s (some { s with cpu_stats := s.precpu_stats })
      ∧ UiUtil.calculate_cpu_usage s none = 0
      ∧ (s.precpu_stats = s.cpu_stats → Ui.calculate_cpu_usage s none = 0) := by
  refine ⟨rfl, rfl, ?_⟩
  intro hpre
  have h : Ui.calculate_cpu_usage s none
      = Ui.calculate_cpu_usage s (some { s with cpu_stats := s.precpu_stats }) := rfl
  rw [h, uiCalcSome]
  have hzero : sysDelta s { s with cpu_stats := s.precpu_stats } = 0 := by
    simp [sysDelta, hpre]
  rw [if_neg]
  intro hcontra
  rw [hzero] at hcontra
  exact lt_irrefl 0 hcontra.1

/-- Sample whose embedded pre-sample equals its current counters exactly
(the zero-delta case of the spec's test). -/
def c3eq : ContainerStats :=
  { cpu_stats :=
      { cpu_usage := { total_usage := 1500, percpu_usage := some [375, 375, 375, 375] }
        system_cpu_usage := some 10500 }
    precpu_stats :=
      { cpu_usage := { total_usage := 1500, percpu_usage := some [375, 375, 375, 375] }
        system_cpu_usage := some 10500 }
    memory_stats := { usage := none, limit := none, stats := none }
    networks := none }

/-- Witness for C3 (amended): a sample whose pre-sample equals its current
sample yields `0.0`, via `cpu_percent_no_previous`. -/
theorem cpu_percent_no_previous_witness :
    Ui.calculate_cpu_usage c3eq none = 0 ∧ UiUtil.calculate_cpu_usage c3eq none = 0 := by
  have h := cpu_percent_no_previous c3eq
  exact ⟨h.2.2 rfl, h.2.1⟩

/-- Current sample whose per-core breakdown is present but empty. -/
def c9cur : ContainerStats :=
  { cpu_stats :=
      { cpu_usage := { total_usage := 1500, percpu_usage := some [] }
        system_cpu_usage := some 10500 }
    precpu_stats :=
      { cpu_usage := { total_usage := 0, percpu_usage := none }
        system_cpu_usage := none }
    memory_stats := { usage := none, limit := none, stats := none }
    networks := none }

/-- Counterexample to C9 as stated: with an *empty but present* per-core
breakdown and strictly positive deltas, both implementations return `0`
(the multiplier is the list length `0`), not the `(500/500)*1*100 = 100`
that a minimum-1 multiplier would give. -/
theorem active_core_count_counterexample :
    UiUtil.calculate_cpu_usage c9cur (some c2prev) = 0
      ∧ Ui.calculate_cpu_usage c9cur (some c2prev) = 0
      ∧ ((0 : ℚ) ≠ 500 / 500 * 1 * 100) := by
  have hpos : 0 < sysDelta c9cur c2prev ∧ 0 < cpuDelta c9cur c2prev := by
    norm_num [sysDelta, cpuDelta, c9cur, c2prev]
  refine ⟨?_, ?_, by norm_num⟩
  · rw [uiUtilCalcSome, if_pos hpos]
    norm_num [numCpus, c9cur]
  · rw [uiCalcSome, if_pos hpos]
    norm_num [numCpus, c9cur]

/-- C9 amended: the multiplier is `1` when the per-core breakdown is
*absent*, but equals the breakdown's length whenever it is *present* — in
particular a present-but-empty breakdown gives multiplier `0`, forcing the
result to `0.0` even with positive deltas. -/
theorem active_core_count_amended (cur prev : ContainerStats)
    (hc : 0 < cpuDelta cur prev) (hs : 0 < sysDelta cur prev) :
    (cur.cpu_stats.cpu_usage.percpu_usage = none →
        UiUtil.calculate_cpu_usage cur (some prev)
          = cpuDelta cur prev / sysDelta cur prev * 1 * 100)
    ∧ (∀ l, cur.cpu_stats.cpu_usage.percpu_usage = some l →
        UiUtil.calculate_cpu_usage cur (some prev)
            = cpuDelta cur prev / sysDelta cur prev * (l.length : ℚ) * 100
          ∧ Ui.calculate_cpu_usage cur (some prev)
            = cpuDelta cur prev / sysDelta cur prev * (l.length : ℚ) * 100) := by
  have hbase := (cpu_percent_formula cur prev).1 ⟨hc, hs⟩
  constructor
  · intro hnone
    rw [hbase.1]
    simp [numCpus, hnone]
  · intro l hsome
    rw [hbase.1, hbase.2]
    simp [numCpus, hsome]

/-- Witness for C9 (amended): at the empty-breakdown sample the multiplier
is its length `0` and the result is `0`, via `active_core_count_amended`. -/
theorem active_core_count_amended_witness :
    UiUtil.calculate_cpu_usage c9cur (some c2prev) = 500 / 500 * (0 : ℚ) * 100 := by
  have h := (active_core_count_amended c9cur c2prev
      (by norm_num [cpuDelta, c9cur, c2prev])
      (by norm_num [sysDelta, c9cur, c2prev])).2 [] rfl
  rw [h.1]
  norm_num [cpuDelta, sysDelta, c9cur, c2prev]

/-! ## Action Executor spec parsers

From src/action.rs (`Action::Create`, lines 165-288, and `Action::Replace`,
lines 423-513); the memory parser is textually identical at all four call
sites (src/action.rs 228-239 and 457-468, src/main.rs 389-400 and 558-569).
Rust strings are modelled as `List Char`. -/

/-- Rust `str::strip_suffix(c)`: drop a final `c` when present. -/
def stripSfx (c : Char) (s : List Char) : Option (List Char) :=
  if s.getLast? = some c then some s.dropLast else none

/-- Numeric value of a list of ASCII digits (most significant first). -/
def digitsVal (l : List Char) : Nat :=
  l.foldl (fun acc c => acc * 10 + (c.toNat - 48)) 0

/-- Largest `i64` value. -/
def i64Max : Int := 2 ^ 63 - 1

/-- Smallest `i64` value. -/
def i64Min : Int := -(2 ^ 63)

/-- ASCII digit test (`0`-`9`), stated over `Char.toNat` for arithmetic
reasoning. -/
def isAsciiDigit (c : Char) : Bool := 48 ≤ c.toNat && c.toNat ≤ 57

/-- Digit-run part of Rust `str::parse::<i64>()`: one or more ASCII digits,
the (possibly negated) value rejected outside the signed 64-bit range. -/
def parseDigits64 (ds : List Char) (neg : Bool) : Option Int :=
  if ds ≠ [] ∧ ds.all isAsciiDigit then
    let v : Int := if neg then -(digitsVal ds : Int) else (digitsVal ds : Int)
    if i64Min ≤ v ∧ v ≤ i64Max then some v else none
  else none

/-- Rust `str::parse::<i64>()`: an optional `+`/`-` sign followed by one or
more ASCII digits, rejected when the value falls outside the signed 64-bit
range. -/
def parseI64 (s : List Char) : Option Int :=
  match s with
  | [] => none
  | c :: rest =>
    if c = '+' then parseDigits64 rest false
    else if c = '-' then parseDigits64 rest true
    else parseDigits64 (c :: rest) false

/-- Wrap an integer to the 64-bit two's-complement range, the release-mode
behaviour of an overflowing Rust `i64` multiplication. -/
def wrap64 (x : Int) : Int := (x + 2 ^ 63) % 2 ^ 64 - 2 ^ 63

/-- Suffix dispatch of the memory-spec parser, applied to the already
lowercased spec (`lower` in the source): strip a `k`/`m`/`g` suffix
(checked in the order `m`, `g`, `k`), parse the rest as `i64` and scale by
1024 to the matching power; without a suffix the number itself is the byte
count. -/
def parseMemoryLower (lower : List Char) : Option Int :=
  match stripSfx 'm' lower with
  | some val => (parseI64 val).map (fun v => wrap64 (v * 1024 * 1024))
  | none =>
    match stripSfx 'g' lower with
    | some val => (parseI64 val).map (fun v => wrap64 (v * 1024 * 1024 * 1024))
    | none =>
      match stripSfx 'k' lower with
      | some val => (parseI64 val).map (fun v => wrap64 (v * 1024))
      | none => parseI64 lower

/-- The memory-spec parser of `Action::Create`/`Replace` (src/action.rs
lines 228-239): an empty spec yields no memory limit (the call site's
`!memory.is_empty()` guard), otherwise the spec is lowercased and
dispatched on its suffix. -/
def parseMemory (memory : List Char) : Option Int :=
  if memory = [] then none
  else parseMemoryLower (memory.map Char.toLower)

/-- Lowercasing fixes ASCII digits. -/
lemma toLower_of_ascii_digit {c : Char} (h : isAsciiDigit c = true) : c.toLower = c := by
  simp only [isAsciiDigit, Bool.and_eq_true, decide_eq_true_eq] at h
  unfold Char.toLower
  rw [if_neg]
  omega

/-- Lowercasing fixes an all-digit character list. -/
lemma map_toLower_digits {ds : List Char} (h : ds.all isAsciiDigit = true) :
    ds.map Char.toLower = ds := by
  induction ds with
  | nil => rfl
  | cons c cs ih =>
    simp only [List.all_cons, Bool.and_eq_true] at h
    simp [toLower_of_ascii_digit h.1, ih h.2]

/-- A nonempty all-digit list ends with a digit. -/
lemma last_digit_of_all {l : List Char} (hne : l ≠ []) (hall : l.all isAsciiDigit = true) :
    ∃ d, l.getLast? = some d ∧ isAsciiDigit d = true := by
  induction l with
  | nil => exact absurd rfl hne
  | cons a l ih =>
    cases l with
    | nil =>
      refine ⟨a, rfl, ?_⟩
      simpa using hall
    | cons b m =>
      simp only [List.all_cons, Bool.and_eq_true] at hall
      obtain ⟨d, hd, hdig⟩ := ih (by simp) (by simp [hall.2.1, hall.2.2])
      exact ⟨d, by rw [List.getLast?_cons_cons]; exact hd, hdig⟩

/-- Inversion of a successful digit-run parse. -/
lemma parseDigits64_some {ds : List Char} {neg : Bool} {v : Int}
    (h : parseDigits64 ds neg = some v) :
    ds ≠ [] ∧ ds.all isAsciiDigit = true := by
  unfold parseDigits64 at h
  by_cases hc : ds ≠ [] ∧ ds.all isAsciiDigit
  · exact hc
  · rw [if_neg hc] at h
    exact absurd h (by simp)

/-- Inversion of a successful `i64` parse: lowercasing fixes the input and
the input ends with an ASCII digit. -/
lemma parseI64_some {s : List Char} {v : Int} (h : parseI64 s = some v) :
    s.map Char.toLower = s ∧ ∃ d, s.getLast? = some d ∧ isAsciiDigit d = true := by
  cases s with
  | nil => exact absurd h (by simp [parseI64])
  | cons c rest =>
    simp only [parseI64] at h
    by_cases h1 : c = '+'
    · rw [if_pos h1] at h
      subst h1
      obtain ⟨hne, hall⟩ := parseDigits64_some h
      obtain ⟨d, hd, hdig⟩ := last_digit_of_all hne hall
      refine ⟨?_, d, ?_, hdig⟩
      · rw [List.map_cons, map_toLower_digits hall,
          show Char.toLower '+' = '+' from by decide]
      · cases rest with
        | nil => exact absurd rfl hne
        | cons r rs => rw [List.getLast?_cons_cons]; exact hd
    · rw [if_neg h1] at h
      by_cases h2 : c = '-'
      · rw [if_pos h2] at h
        subst h2
        obtain ⟨hne, hall⟩ := parseDigits64_some h
        obtain ⟨d, hd, hdig⟩ := last_digit_of_all hne hall
        refine ⟨?_, d, ?_, hdig⟩
        · rw [List.map_cons, map_toLower_digits hall,
            show Char.toLower '-' = '-' from by decide]
        · cases rest with
          | nil => exact absurd rfl hne
          | cons r rs => rw [List.getLast?_cons_cons]; exact hd
      · rw [if_neg h2] at h
        obtain ⟨hne, hall⟩ := parseDigits64_some h
        obtain ⟨d, hd, hdig⟩ := last_digit_of_all hne hall
        exact ⟨map_toLower_digits hall, d, hd, hdig⟩

/-- Stripping a lowercase-letter suffix from a digit-terminated list fails. -/
lemma stripSfx_none_of_digit_last (c : Char) (hc : 97 ≤ c.toNat) {d : Char} {s : List Char}
    (hlast : s.getLast? = some d) (hd : isAsciiDigit d = true) :
    stripSfx c s = none := by
  simp only [isAsciiDigit, Bool.and_eq_true, decide_eq_true_eq] at hd
  unfold stripSfx
  rw [hlast, if_neg]
  intro he
  have hdc : d = c := by injection he
  subst hdc
  omega

/-- Stripping the suffix just appended succeeds. -/
lemma stripSfx_concat (c : Char) (l : List Char) : stripSfx c (l ++ [c]) = some l := by
  unfold stripSfx
  rw [List.getLast?_concat, if_pos rfl, List.dropLast_concat]

/-- Stripping a different suffix than the one appended fails. -/
lemma stripSfx_concat_ne (c c2 : Char) (h : c2 ≠ c) (l : List Char) :
    stripSfx c (l ++ [c2]) = none := by
  unfold stripSfx
  rw [List.getLast?_concat, if_neg]
  intro he
  exact h (by injection he)

/-- Suffix dispatch when the `m` branch fires. -/
lemma parseMemoryLower_m {l rest : List Char} (hm : stripSfx 'm' l = some rest) :
    parseMemoryLower l = (parseI64 rest).map (fun v => wrap64 (v * 1024 * 1024)) := by
  unfold parseMemoryLower
  simp only [hm]

/-- Suffix dispatch when the `g` branch fires. -/
lemma parseMemoryLower_g {l rest : List Char} (hm : stripSfx 'm' l = none)
    (hg : stripSfx 'g' l = some rest) :
    parseMemoryLower l = (parseI64 rest).map (fun v => wrap64 (v * 1024 * 1024 * 1024)) := by
  unfold parseMemoryLower
  simp only [hm, hg]

/-- Suffix dispatch when the `k` branch fires. -/
lemma parseMemoryLower_k {l rest : List Char} (hm : stripSfx 'm' l = none)
    (hg : stripSfx 'g' l = none) (hk : stripSfx 'k' l = some rest) :
    parseMemoryLower l = (parseI64 rest).map (fun v => wrap64 (v * 1024)) := by
  unfold parseMemoryLower
  simp only [hm, hg, hk]

/-- Suffix dispatch without any suffix. -/
lemma parseMemoryLower_plain {l : List Char} (hm : stripSfx 'm' l = none)
    (hg : stripSfx 'g' l = none) (hk : stripSfx 'k' l = none) :
    parseMemoryLower l = parseI64 l := by
  unfold parseMemoryLower
  simp only [hm, hg, hk]

/-- Values inside the signed 64-bit range are fixed by the wrap. -/
lemma wrap64_eq_self {x : Int} (h1 : i64Min ≤ x) (h2 : x ≤ i64Max) : wrap64 x = x := by
  unfold i64Min at h1
  unfold i64Max at h2
  unfold wrap64
  rw [Int.emod_eq_of_lt (by omega) (by omega)]
  omega

/-- C5: the memory-spec parser scales a parsed numeric prefix by 1024,
1024², or 1024³ for a (case-insensitive) `k`/`m`/`g` suffix, and reads a
suffix-free number as plain bytes, whenever the scaled product stays inside
the `i64` range. -/
theorem memory_spec_parsing (ds : List Char) (v : Int) (hp : parseI64 ds = some v) :
    parseMemory ds = some v
    ∧ (i64Min ≤ v * 1024 ∧ v * 1024 ≤ i64Max →
        parseMemory (ds ++ ['k']) = some (v * 1024)
        ∧ parseMemory (ds ++ ['K']) = some (v * 1024))
    ∧ (i64Min ≤ v * 1024 * 1024 ∧ v * 1024 * 1024 ≤ i64Max →
        parseMemory (ds ++ ['m']) = some (v * 1024 * 1024)
        ∧ parseMemory (ds ++ ['M']) = some (v * 1024 * 1024))
    ∧ (i64Min ≤ v * 1024 * 1024 * 1024 ∧ v * 1024 * 1024 * 1024 ≤ i64Max →
        parseMemory (ds ++ ['g']) = some (v * 1024 * 1024 * 1024)
        ∧ parseMemory (ds ++ ['G']) = some (v * 1024 * 1024 * 1024)) := by
  obtain ⟨hmap, d, hlast, hdig⟩ := parseI64_some hp
  have hne : ds ≠ [] := by
    intro he
    rw [he] at hlast
    exact absurd hlast (by simp)
  have suffixCase : ∀ c : Char,
      parseMemory (ds ++ [c]) = parseMemoryLower (ds ++ [c.toLower]) := by
    intro c
    unfold parseMemory
    rw [if_neg (by simp), List.map_append, hmap, List.map_singleton]
  refine ⟨?_, ?_, ?_, ?_⟩
  · unfold parseMemory
    rw [if_neg hne, hmap]
    rw [parseMemoryLower_plain (stripSfx_none_of_digit_last 'm' (by decide) hlast hdig)
      (stripSfx_none_of_digit_last 'g' (by decide) hlast hdig)
      (stripSfx_none_of_digit_last 'k' (by decide) hlast hdig)]
    exact hp
  · intro hr
    have base : parseMemoryLower (ds ++ ['k']) = some (v * 1024) := by
      rw [parseMemoryLower_k (stripSfx_concat_ne 'm' 'k' (by decide) ds)
        (stripSfx_concat_ne 'g' 'k' (by decide) ds) (stripSfx_concat 'k' ds)]
      rw [hp]
      simp only [Option.map_some']
      rw [wrap64_eq_self hr.1 hr.2]
    constructor
    · rw [suffixCase 'k', show Char.toLower 'k' = 'k' from by decide]
      exact base
    · rw [suffixCase 'K', show Char.toLower 'K' = 'k' from by decide]
      exact base
  · intro hr
    have base : parseMemoryLower (ds ++ ['m']) = some (v * 1024 * 1024) := by
      rw [parseMemoryLower_m (stripSfx_concat 'm' ds)]
      rw [hp]
      simp only [Option.map_some']
      rw [wrap64_eq_self hr.1 hr.2]
    constructor
    · rw [suffixCase 'm', show Char.toLower 'm' = 'm' from by decide]
      exact base
    · rw [suffixCase 'M', show Char.toLower 'M' = 'm' from by decide]
      exact base
  · intro hr
    have base : parseMemoryLower (ds ++ ['g']) = some (v * 1024 * 1024 * 1024) := by
      rw [parseMemoryLower_g (stripSfx_concat_ne 'm' 'g' (by decide) ds)
        (stripSfx_concat 'g' ds)]
      rw [hp]
      simp only [Option.map_some']
      rw [wrap64_eq_self hr.1 hr.2]
    constructor
    · rw [suffixCase 'g', show Char.toLower 'g' = 'g' from by decide]
      exact base
    · rw [suffixCase 'G', show Char.toLower 'G' = 'g' from by decide]
      exact base

/-- Witness for C5: the spec's three examples, via `memory_spec_parsing`. -/
theorem memory_spec_parsing_witness :
    parseMemory ("512m".data) = some 536870912
    ∧ parseMemory ("2g".data) = some 2147483648
    ∧ parseMemory ("100".data) = some 100 := by
  refine ⟨?_, ?_, ?_⟩
  · have h := (memory_spec_parsing ("512".data) 512 (by decide)).2.2.1
      (by norm_num [i64Min, i64Max])
    have e : "512m".data = "512".data ++ ['m'] := rfl
    rw [e, h.1]
    norm_num
  · have h := (memory_spec_parsing ("2".data) 2 (by decide)).2.2.2
      (by norm_num [i64Min, i64Max])
    have e : "2g".data = "2".data ++ ['g'] := rfl
    rw [e, h.1]
    norm_num
  · exact (memory_spec_parsing ("100".data) 100 (by decide)).1

/-! ## Port-spec parsing

The `Action::Create` arm of src/action.rs (lines 191-222) supports several
space/comma-separated `host:container` pairs and bare ports; the
`Action::Replace` arm of src/action.rs (lines 441-451) and both arms of
src/main.rs (lines 371-383 and 540-552) accept a single `host:container`
pair only. -/

/-- Struct `PortBinding` of the container-API model as populated at these
call sites (`host_ip`/`host_port` are always set to `Some`). -/
structure PortBinding where
  host_ip : Option (List Char)
  host_port : Option (List Char)
deriving Repr, DecidableEq

/-- The two maps built by the port parsers: `port_bindings` (container
port → optional vector of bindings) and the key set of `exposed_ports`
(every inserted value there is the empty map, so only keys are modelled). -/
structure PortMaps where
  port_bindings : List (List Char × Option (List PortBinding))
  exposed_ports : List (List Char)
deriving Repr, DecidableEq

/-- `HashMap::insert` key-set effect on an association-list model: add the
key when absent (re-inserting the same empty-map value otherwise). -/
def keyInsert (k : List Char) (l : List (List Char)) : List (List Char) :=
  if k ∈ l then l else l ++ [k]

/-- The `entry(k).or_insert_with(|| Some(Vec::new())).as_mut().map(|v| v.push(b))`
idiom of src/action.rs lines 214-220 on an association list: push onto the
vector at `k`, creating the entry with an empty vector first when absent. -/
def entryPush (k : List Char) (b : PortBinding) :
    List (List Char × Option (List PortBinding)) →
      List (List Char × Option (List PortBinding))
  | [] => [(k, some [b])]
  | e :: rest =>
    if e.1 = k then
      (e.1, match e.2 with | some l => some (l ++ [b]) | none => none) :: rest
    else e :: entryPush k b rest

/-- Rust `str::split` with a character predicate: the pieces between
matching characters, empty pieces kept. -/
def splitPred (p : Char → Bool) : List Char → List (List Char)
  | [] => [[]]
  | c :: cs =>
    if p c then [] :: splitPred p cs
    else
      match splitPred p cs with
      | [] => [[c]]
      | piece :: rest => (c :: piece) :: rest

/-- Rust `str::trim` (whitespace as modelled by `Char.isWhitespace`). -/
def trim (s : List Char) : List Char :=
  ((s.dropWhile Char.isWhitespace).reverse.dropWhile Char.isWhitespace).reverse

/-- The pair of insertions shared by both arms of the `Create` loop body
(src/action.rs lines 209-220): record `k` in the exposed-ports key set and
push a `0.0.0.0:hp` binding onto the vector at `k`. -/
def portEntry (k hp : List Char) (maps : PortMaps) : PortMaps :=
  { port_bindings :=
      entryPush k { host_ip := some "0.0.0.0".data, host_port := some hp }
        maps.port_bindings
    exposed_ports := keyInsert k maps.exposed_ports }

/-- One iteration of the `for port_def in ports.split(|c| c == ' ' || c == ',')`
loop of src/action.rs lines 195-221. -/
def createPortStep (maps : PortMaps) (tok : List Char) : PortMaps :=
  let port_def := trim tok
  if port_def = [] then maps
  else
    match splitPred (fun ch => ch == ':') port_def with
    | [h, c] => portEntry (trim c ++ "/tcp".data) (trim h) maps
    | [p] => portEntry (trim p ++ "/tcp".data) (trim p) maps
    | _ => maps

/-- Port parsing of `Action::Create`, src/action.rs lines 191-222. -/
def createPortMaps (ports : List Char) : PortMaps :=
  if ports = [] then { port_bindings := [], exposed_ports := [] }
  else
    (splitPred (fun ch => ch == ' ' || ch == ',') ports).foldl createPortStep
      { port_bindings := [], exposed_ports := [] }

/-- Port parsing of `Action::Replace` (src/action.rs lines 441-451) and of
both `Action::Create` and `Action::Replace` in src/main.rs: split on `:`
and build a single binding only when there are exactly two parts. -/
def replacePortMaps (ports : List Char) : PortMaps :=
  if ports = [] then { port_bindings := [], exposed_ports := [] }
  else
    match splitPred (fun ch => ch == ':') ports with
    | [p0, p1] =>
      { port_bindings :=
          [(p1 ++ "/tcp".data,
            some [{ host_ip := some "0.0.0.0".data, host_port := some p0 }])]
        exposed_ports := [p1 ++ "/tcp".data] }
    | _ => { port_bindings := [], exposed_ports := [] }

/-- A character allowed inside one side of a port token: not a pair
separator, not a colon, not whitespace. -/
def portTokenChar (c : Char) : Bool :=
  !(c == ' ') && !(c == ',') && !(c == ':') && !c.isWhitespace

/-- Defining equation of `splitPred` on a cons cell. -/
lemma splitPred_cons (p : Char → Bool) (c : Char) (cs : List Char) :
    splitPred p (c :: cs)
      = if p c then [] :: splitPred p cs
        else
          match splitPred p cs with
          | [] => [[c]]
          | piece :: rest => (c :: piece) :: rest := rfl

/-- Splitting a separator-free list yields the list itself as one piece. -/
lemma splitPred_no_sep {p : Char → Bool} {s : List Char}
    (h : ∀ ch ∈ s, p ch = false) : splitPred p s = [s] := by
  induction s with
  | nil => rfl
  | cons c cs ih =>
    rw [splitPred_cons, if_neg (by simp [h c (by simp)])]
    rw [ih (fun ch hm => h ch (by simp [hm]))]

/-- Splitting around a single separator yields exactly the two sides. -/
lemma splitPred_single_sep {p : Char → Bool} {c : Char} (hc : p c = true)
    {a b : List Char} (ha : ∀ ch ∈ a, p ch = false) (hb : ∀ ch ∈ b, p ch = false) :
    splitPred p (a ++ c :: b) = [a, b] := by
  induction a with
  | nil =>
    rw [List.nil_append, splitPred_cons, if_pos hc, splitPred_no_sep hb]
  | cons x xs ih =>
    have hx : p x = false := ha x (by simp)
    rw [List.cons_append, splitPred_cons, if_neg (by simp [hx])]
    rw [ih (fun ch hm => ha ch (by simp [hm]))]

/-- `dropWhile` is the identity when no element matches. -/
lemma dropWhile_eq_self_of_all {p : Char → Bool} {l : List Char}
    (h : ∀ ch ∈ l, p ch = false) : l.dropWhile p = l := by
  cases l with
  | nil => rfl
  | cons a l =>
    rw [List.dropWhile_cons, if_neg (by simp [h a (by simp)])]

/-- `trim` is the identity on whitespace-free lists. -/
lemma trim_no_ws {s : List Char} (h : ∀ ch ∈ s, ch.isWhitespace = false) :
    trim s = s := by
  unfold trim
  rw [dropWhile_eq_self_of_all h,
    dropWhile_eq_self_of_all (fun ch hm => h ch (by simpa using hm)),
    List.reverse_reverse]

/-- Facts about a `portTokenChar`. -/
lemma portTokenChar_props {c : Char} (h : portTokenChar c = true) :
    ((c == ' ' || c == ',') = false) ∧ ((c == ':') = false) ∧ c.isWhitespace = false := by
  simp only [portTokenChar, Bool.and_eq_true, Bool.not_eq_true'] at h
  simp [h.1.1.1, h.1.1.2, h.1.2, h.2]

/-- The `Create` loop body on a clean `host:container` token. -/
lemma createPortStep_pair (maps : PortMaps) {h c : List Char}
    (hh : ∀ ch ∈ h, portTokenChar ch = true) (hc : ∀ ch ∈ c, portTokenChar ch = true)
    (hhne : h ≠ []) :
    createPortStep maps (h ++ ':' :: c) = portEntry (c ++ "/tcp".data) h maps := by
  have hws : ∀ ch ∈ h ++ ':' :: c, ch.isWhitespace = false := by
    intro ch hm
    rcases List.mem_append.mp hm with hm | hm
    · exact (portTokenChar_props (hh ch hm)).2.2
    · rcases List.mem_cons.mp hm with hm | hm
      · rw [hm]; decide
      · exact (portTokenChar_props (hc ch hm)).2.2
  have hsplit : splitPred (fun ch => ch == ':') (h ++ ':' :: c) = [h, c] :=
    splitPred_single_sep (by decide)
      (fun ch hm => (portTokenChar_props (hh ch hm)).2.1)
      (fun ch hm => (portTokenChar_props (hc ch hm)).2.1)
  unfold createPortStep
  rw [trim_no_ws hws, if_neg (by simp [hhne]), hsplit]
  show portEntry (trim c ++ "/tcp".data) (trim h) maps = _
  rw [trim_no_ws (fun ch hm => (portTokenChar_props (hh ch hm)).2.2),
    trim_no_ws (fun ch hm => (portTokenChar_props (hc ch hm)).2.2)]

/-- The `Create` loop body on a clean bare-port token. -/
lemma createPortStep_bare (maps : PortMaps) {t : List Char}
    (ht : ∀ ch ∈ t, portTokenChar ch = true) (htne : t ≠ []) :
    createPortStep maps t = portEntry (t ++ "/tcp".data) t maps := by
  have hws : ∀ ch ∈ t, ch.isWhitespace = false :=
    fun ch hm => (portTokenChar_props (ht ch hm)).2.2
  have hsplit : splitPred (fun ch => ch == ':') t = [t] :=
    splitPred_no_sep (fun ch hm => (portTokenChar_props (ht ch hm)).2.1)
  unfold createPortStep
  rw [trim_no_ws hws, if_neg htne, hsplit]
  show portEntry (trim t ++ "/tcp".data) (trim t) maps = _
  rw [trim_no_ws hws]

/-- Counterexample to C4 as stated: the `Replace` port parser (and the
parser of both arms in src/main.rs) maps the bare port `"3000"` to *no*
binding at all — `"3000/tcp"` is not in the exposed-ports map. -/
theorem port_spec_parsing_counterexample :
    replacePortMaps ("3000".data) = { port_bindings := [], exposed_ports := [] }
      ∧ ¬ ("3000/tcp".data ∈ (replacePortMaps ("3000".data)).exposed_ports) := by
  refine ⟨by decide, by decide⟩

/-- C4 amended: the `Action::Create` parser of src/action.rs supports
space/comma-separated `host:container` pairs and bare ports (a clean pair
token yields one binding host→container/tcp, a bare port `p` yields
host `p`→`p/tcp`, and `"8080:80,9090:90"` yields two independent bindings
both present in the exposed-ports map); the `Action::Replace` parser (and
both arms in src/main.rs) accepts only a single `host:container` pair, and
yields no binding for a bare port or a multi-pair spec. -/
theorem port_spec_parsing :
    (∀ h c : List Char, h ≠ [] → c ≠ [] →
      (∀ ch ∈ h, portTokenChar ch = true) → (∀ ch ∈ c, portTokenChar ch = true) →
      createPortMaps (h ++ ':' :: c)
          = { port_bindings :=
                [(c ++ "/tcp".data,
                  some [{ host_ip := some "0.0.0.0".data, host_port := some h }])]
              exposed_ports := [c ++ "/tcp".data] }
        ∧ replacePortMaps (h ++ ':' :: c)
          = { port_bindings :=
                [(c ++ "/tcp".data,
                  some [{ host_ip := some "0.0.0.0".data, host_port := some h }])]
              exposed_ports := [c ++ "/tcp".data] })
    ∧ (∀ t : List Char, t ≠ [] → (∀ ch ∈ t, portTokenChar ch = true) →
      createPortMaps t
          = { port_bindings :=
                [(t ++ "/tcp".data,
                  some [{ host_ip := some "0.0.0.0".data, host_port := some t }])]
              exposed_ports := [t ++ "/tcp".data] }
        ∧ replacePortMaps t = { port_bindings := [], exposed_ports := [] })
    ∧ createPortMaps ("8080:80,9090:90".data)
        = { port_bindings :=
              [("80/tcp".data,
                some [{ host_ip := some "0.0.0.0".data, host_port := some ("8080".data) }]),
               ("90/tcp".data,
                some [{ host_ip := some "0.0.0.0".data, host_port := some ("9090".data) }])]
            exposed_ports := ["80/tcp".data, "90/tcp".data] }
    ∧ replacePortMaps ("8080:80,9090:90".data)
        = { port_bindings := [], exposed_ports := [] } := by
  refine ⟨?_, ?_, by decide, by decide⟩
  · intro h c hhne hcne hh hc
    have hnosep : ∀ ch ∈ h ++ ':' :: c, (ch == ' ' || ch == ',') = false := by
      intro ch hm
      rcases List.mem_append.mp hm with hm | hm
      · exact (portTokenChar_props (hh ch hm)).1
      · rcases List.mem_cons.mp hm with hm | hm
        · rw [hm]; decide
        · exact (portTokenChar_props (hc ch hm)).1
    constructor
    · unfold createPortMaps
      rw [if_neg (by simp [hhne]), splitPred_no_sep hnosep]
      rw [List.foldl_cons, List.foldl_nil]
      rw [createPortStep_pair _ hh hc hhne]
      simp [portEntry, entryPush, keyInsert]
    · unfold replacePortMaps
      rw [if_neg (by simp [hhne])]
      rw [splitPred_single_sep (by decide)
        (fun ch hm => (portTokenChar_props (hh ch hm)).2.1)
        (fun ch hm => (portTokenChar_props (hc ch hm)).2.1)]
  · intro t htne ht
    constructor
    · unfold createPortMaps
      rw [if_neg htne,
        splitPred_no_sep (fun ch hm => (portTokenChar_props (ht ch hm)).1)]
      rw [List.foldl_cons, List.foldl_nil]
      rw [createPortStep_bare _ ht htne]
      simp [portEntry, entryPush, keyInsert]
    · unfold replacePortMaps
      rw [if_neg htne,
        splitPred_no_sep (fun ch hm => (portTokenChar_props (ht ch hm)).2.1)]

/-- Witness for C4 (amended): the spec's `"8080:80"` and `"3000"` examples,
via `port_spec_parsing`. -/
theorem port_spec_parsing_witness :
    createPortMaps ("8080:80".data)
        = { port_bindings :=
              [("80/tcp".data,
                some [{ host_ip := some "0.0.0.0".data, host_port := some ("8080".data) }])]
            exposed_ports := ["80/tcp".data] }
      ∧ createPortMaps ("3000".data)
        = { port_bindings :=
              [("3000/tcp".data,
                some [{ host_ip := some "0.0.0.0".data, host_port := some ("3000".data) }])]
            exposed_ports := ["3000/tcp".data] } := by
  constructor
  · have h := (port_spec_parsing.1 ("8080".data) ("80".data)
      (by decide) (by decide) (by decide) (by decide)).1
    have e : "8080:80".data = "8080".data ++ ':' :: "80".data := rfl
    rw [e, h]
    rfl
  · exact (port_spec_parsing.2.1 ("3000".data) (by decide) (by decide)).1

/-! ## Engine-client response parsing, from src/docker.rs -/

namespace Docker

/-- The CRLF-CRLF header/body delimiter. -/
def crlfcrlf : List Char := ['\r', '\n', '\r', '\n']

/-- Rust `splitn(2, sep)` when `sep` occurs: `some (pre, post)` with `s =
pre ++ sep ++ post` and `pre` before the *first* occurrence. -/
def splitFirst (sep : List Char) : List Char → Option (List Char × List Char)
  | [] => none
  | c :: cs =>
    if sep.isPrefixOf (c :: cs) then some ([], (c :: cs).drop sep.length)
    else
      match splitFirst sep cs with
      | some pr => some (c :: pr.1, pr.2)
      | none => none

/-- Does `s` contain `sep` as a contiguous run? -/
def containsSeq (sep : List Char) : List Char → Bool
  | [] => sep.isEmpty
  | c :: cs => sep.isPrefixOf (c :: cs) || containsSeq sep cs

/-- Response-body extraction of `DockerClient::send_request` (src/docker.rs
lines 163-184): split once on the first `\r\n\r\n`; with no delimiter, a
response starting `HTTP/1.1 204`, `HTTP/1.1 304` or `HTTP/1.1 200` is a
valid empty body; anything else is the protocol error whose message carries
a snippet of at most 100 characters of the raw response. -/
def parse_response (s : List Char) : Except (List Char) (List Char) :=
  match splitFirst crlfcrlf s with
  | some pr => .ok pr.2
  | none =>
    if ("HTTP/1.1 204".data).isPrefixOf s then .ok []
    else if ("HTTP/1.1 304".data).isPrefixOf s then .ok []
    else if ("HTTP/1.1 200".data).isPrefixOf s then .ok []
    else .error ("Invalid response from Docker daemon: ".data ++ s.take 100)

/-- A found split decomposes the input. -/
lemma splitFirst_decomp {sep s pre post : List Char}
    (h : splitFirst sep s = some (pre, post)) : s = pre ++ sep ++ post := by
  induction s generalizing pre post with
  | nil => exact absurd h (by simp [splitFirst])
  | cons c cs ih =>
    unfold splitFirst at h
    by_cases hp : sep.isPrefixOf (c :: cs)
    · rw [if_pos hp] at h
      obtain ⟨h1, h2⟩ := Prod.mk.injEq .. ▸ Option.some.injEq .. ▸ h
      have hpre : sep <+: (c :: cs) := by
        rw [← List.isPrefixOf_iff_prefix]
        exact hp
      obtain ⟨t, ht⟩ := hpre
      rw [← h1, ← h2, List.nil_append, ← ht, List.drop_left]
    · rw [if_neg hp] at h
      cases hsf : splitFirst sep cs with
      | none => rw [hsf] at h; exact absurd h (by simp)
      | some pr =>
        rw [hsf] at h
        obtain ⟨h1, h2⟩ := Prod.mk.injEq .. ▸ Option.some.injEq .. ▸ h
        have := ih (show splitFirst sep cs = some (pr.1, pr.2) by rw [hsf])
        rw [← h1, ← h2, List.cons_append, List.cons_append, ← this]

/-- A found split is at the first occurrence. -/
lemma splitFirst_minimal {sep s pre post : List Char}
    (h : splitFirst sep s = some (pre, post)) :
    ∀ pre2 post2, s = pre2 ++ sep ++ post2 → pre.length ≤ pre2.length := by
  induction s generalizing pre post with
  | nil => exact absurd h (by simp [splitFirst])
  | cons c cs ih =>
    intro pre2 post2 hdec
    unfold splitFirst at h
    by_cases hp : sep.isPrefixOf (c :: cs)
    · rw [if_pos hp] at h
      have : pre = [] := by
        have := (Option.some.injEq .. ▸ h)
        exact (Prod.mk.injEq .. ▸ this).1.symm
      rw [this]
      exact Nat.zero_le _
    · rw [if_neg hp] at h
      cases pre2 with
      | nil =>
        exfalso
        apply hp
        rw [List.isPrefixOf_iff_prefix]
        exact ⟨post2, by rw [hdec, List.nil_append]⟩
      | cons x pre2t =>
        cases hsf : splitFirst sep cs with
        | none => rw [hsf] at h; exact absurd h (by simp)
        | some pr =>
          rw [hsf] at h
          obtain ⟨h1, h2⟩ := Prod.mk.injEq .. ▸ Option.some.injEq .. ▸ h
          have hcs : cs = pre2t ++ sep ++ post2 := by
            have := List.cons.injEq .. ▸ hdec
            exact this.2
          have := ih (show splitFirst sep cs = some (pr.1, pr.2) by rw [hsf]) pre2t post2 hcs
          rw [← h1]
          simpa using Nat.succ_le_succ this

/-- `containsSeq` matches `splitFirst` success, for a nonempty needle. -/
lemma containsSeq_iff_splitFirst {sep : List Char} (hne : sep ≠ []) (s : List Char) :
    containsSeq sep s = true ↔ (splitFirst sep s).isSome = true := by
  induction s with
  | nil =>
    simp [containsSeq, splitFirst, List.isEmpty_iff, hne]
  | cons c cs ih =>
    unfold containsSeq splitFirst
    by_cases hp : sep.isPrefixOf (c :: cs)
    · simp [hp]
    · rw [if_neg hp]
      simp only [hp, Bool.false_or]
      rw [ih]
      cases hsf : splitFirst sep cs with
      | none => simp
      | some pr => simp

/-- C7: `send_request` body extraction — with a CRLF-CRLF delimiter the
body is everything after the *first* delimiter; with no delimiter, a
response starting with one of the three known no-body status lines gives
an empty body; any other delimiter-free response is a protocol error
carrying an at-most-100-character snippet of the raw response. -/
theorem response_parsing (s : List Char) :
    (containsSeq crlfcrlf s = true →
      ∃ pre body, s = pre ++ crlfcrlf ++ body
        ∧ (∀ pre2 body2, s = pre2 ++ crlfcrlf ++ body2 → pre.length ≤ pre2.length)
        ∧ parse_response s = .ok body)
    ∧ (containsSeq crlfcrlf s = false →
        (("HTTP/1.1 204".data).isPrefixOf s = true
          ∨ ("HTTP/1.1 304".data).isPrefixOf s = true
          ∨ ("HTTP/1.1 200".data).isPrefixOf s = true) →
        parse_response s = .ok [])
    ∧ (containsSeq crlfcrlf s = false →
        ("HTTP/1.1 204".data).isPrefixOf s = false →
        ("HTTP/1.1 304".data).isPrefixOf s = false →
        ("HTTP/1.1 200".data).isPrefixOf s = false →
        parse_response s
            = .error ("Invalid response from Docker daemon: ".data ++ s.take 100)
          ∧ (s.take 100).length ≤ 100) := by
  have hnone : containsSeq crlfcrlf s = false → splitFirst crlfcrlf s = none := by
    intro hc
    cases hsf : splitFirst crlfcrlf s with
    | none => rfl
    | some pr =>
      have : containsSeq crlfcrlf s = true := by
        rw [containsSeq_iff_splitFirst (by decide), hsf]
        rfl
      rw [this] at hc
      exact absurd hc (by simp)
  refine ⟨?_, ?_, ?_⟩
  · intro hc
    have hsome := (containsSeq_iff_splitFirst (by decide) s).mp hc
    cases hsf : splitFirst crlfcrlf s with
    | none => rw [hsf] at hsome; exact absurd hsome (by simp)
    | some pr =>
      refine ⟨pr.1, pr.2, splitFirst_decomp (by rw [hsf]), splitFirst_minimal (by rw [hsf]), ?_⟩
      unfold parse_response
      rw [hsf]
  · intro hc hdisj
    unfold parse_response
    rw [hnone hc]
    rcases hdisj with hd | hd | hd <;> simp [hd]
  · intro hc h204 h304 h200
    unfold parse_response
    rw [hnone hc]
    rw [if_neg (by simp [h204]), if_neg (by simp [h304]), if_neg (by simp [h200])]
    exact ⟨rfl, List.length_take_le 100 s⟩

/-- Witness for C7: a no-body 204 response, a delimited response, and a
garbage response, via `response_parsing`. -/
theorem response_parsing_witness :
    parse_response ("HTTP/1.1 204 No Content".data) = .ok []
      ∧ parse_response ("garbage".data)
        = .error ("Invalid response from Docker daemon: ".data ++ ("garbage".data).take 100)
      ∧ ∃ pre body, "HTTP/1.1 200 OK\r\nA: b\r\n\r\n{}".data = pre ++ crlfcrlf ++ body
          ∧ (∀ pre2 body2,
              "HTTP/1.1 200 OK\r\nA: b\r\n\r\n{}".data = pre2 ++ crlfcrlf ++ body2 →
              pre.length ≤ pre2.length)
          ∧ parse_response ("HTTP/1.1 200 OK\r\nA: b\r\n\r\n{}".data) = .ok body := by
  refine ⟨?_, ?_, ?_⟩
  · exact (response_parsing _).2.1 (by decide) (Or.inl (by decide))
  · exact ((response_parsing _).2.2 (by decide) (by decide) (by decide) (by decide)).1
  · exact (response_parsing _).1 (by decide)

end Docker

/-! ## Log-stream demultiplexing, from src/main.rs (Task 3, lines 169-212)

The byte stream is a `List ℕ`; each `tx.send` of the subtask is one emitted
message (a byte sequence).  `String::from_utf8_lossy` cannot create or
destroy `0x0A`/`0x0D` bytes (ASCII bytes decode to themselves and no
multi-byte or invalid sequence contains a byte below `0x80`), so line
boundaries coincide before and after the decode and the emitted lines are
modelled at the byte level.  The loops are written with an explicit fuel
argument (one unit per iteration, each iteration consuming at least one
byte) so that the recursion is structural; `s.length` units always
suffice. -/

namespace LogStream

/-- `u32::from_be_bytes` on the last four header bytes. -/
def be32 (b4 b5 b6 b7 : Nat) : Nat := ((b4 * 256 + b5) * 256 + b6) * 256 + b7

/-- Rust `split_inclusive` on a byte list: the pieces keep their matching
terminator; an empty input has no pieces. -/
def splitInclusive (p : Nat → Bool) : List Nat → List (List Nat)
  | [] => []
  | a :: as =>
    if p a then [a] :: splitInclusive p as
    else
      match splitInclusive p as with
      | [] => [[a]]
      | piece :: rest => (a :: piece) :: rest

/-- The per-line mapping of Rust `str::lines`: strip one terminating
newline and, only when it was present, one carriage return before it. -/
def lineChunk (piece : List Nat) : List Nat :=
  if piece.getLast? = some 10 then
    if piece.dropLast.getLast? = some 13 then piece.dropLast.dropLast
    else piece.dropLast
  else piece

/-- Rust `String::from_utf8_lossy(payload).lines()` at the byte level. -/
def lossyLines (payload : List Nat) : List (List Nat) :=
  (splitInclusive (fun b => b == 10) payload).map lineChunk

/-- The continuation loop of the log streamer (src/main.rs lines 185-193,
fueled): read an 8-byte header (stop when it cannot be filled), stop on a
size strictly above 10 MB, stop on a failed payload read, otherwise emit
the payload's lines and continue. -/
def demuxLoopF : Nat → List Nat → List (List Nat)
  | 0, _ => []
  | fuel + 1, s =>
    match s with
    | b0 :: b1 :: b2 :: b3 :: b4 :: b5 :: b6 :: b7 :: rest =>
      if 10000000 < be32 b4 b5 b6 b7 then []
      else if rest.length < be32 b4 b5 b6 b7 then []
      else
        lossyLines (rest.take (be32 b4 b5 b6 b7))
          ++ demuxLoopF fuel (rest.drop (be32 b4 b5 b6 b7))
    | _ => []

/-- The continuation loop on a byte stream (its length is always enough
fuel, as every iteration consumes at least eight bytes). -/
def demuxLoop (s : List Nat) : List (List Nat) := demuxLoopF s.length s

/-- The raw fallback loop (src/main.rs lines 197-209, fueled): read up to
1024 bytes per iteration and emit each `split_inclusive('\n')` piece of
the chunk. -/
def rawLoopF : Nat → List Nat → List (List Nat)
  | 0, _ => []
  | fuel + 1, s =>
    match s with
    | [] => []
    | a :: as =>
      splitInclusive (fun b => b == 10) ((a :: as).take 1024)
        ++ rawLoopF fuel ((a :: as).drop 1024)

/-- The raw fallback loop on a byte stream. -/
def rawLoop (s : List Nat) : List (List Nat) := rawLoopF s.length s

/-- The log-streamer subtask (src/main.rs lines 169-212): read the first
8 bytes (emitting nothing if the stream is shorter); if they match the
multiplexed-header pattern, process the first frame — note the first
frame's size check is `size < 10_000_000`, and an oversized first frame
merely *skips* the payload read before entering the loop on the very next
bytes — then run the continuation loop; otherwise emit the 8 bytes as one
chunk and fall back to raw chunked line splitting. -/
def demux : List Nat → List (List Nat)
  | b0 :: b1 :: b2 :: b3 :: b4 :: b5 :: b6 :: b7 :: rest =>
    if b0 ≤ 2 ∧ b1 = 0 ∧ b2 = 0 ∧ b3 = 0 then
      if be32 b4 b5 b6 b7 < 10000000 then
        if rest.length < be32 b4 b5 b6 b7 then []
        else
          lossyLines (rest.take (be32 b4 b5 b6 b7))
            ++ demuxLoop (rest.drop (be32 b4 b5 b6 b7))
      else demuxLoop rest
    else [b0, b1, b2, b3, b4, b5, b6, b7] :: rawLoop rest
  | _ => []

/-- Defining equation of the demultiplexer on a full first header. -/
lemma demux_cons (b0 b1 b2 b3 b4 b5 b6 b7 : Nat) (rest : List Nat) :
    demux (b0 :: b1 :: b2 :: b3 :: b4 :: b5 :: b6 :: b7 :: rest)
      = if b0 ≤ 2 ∧ b1 = 0 ∧ b2 = 0 ∧ b3 = 0 then
          if be32 b4 b5 b6 b7 < 10000000 then
            if rest.length < be32 b4 b5 b6 b7 then []
            else
              lossyLines (rest.take (be32 b4 b5 b6 b7))
                ++ demuxLoop (rest.drop (be32 b4 b5 b6 b7))
          else demuxLoop rest
        else [b0, b1, b2, b3, b4, b5, b6, b7] :: rawLoop rest := rfl

/-- A multiplexed log frame: stream-kind byte and payload. -/
structure Frame where
  kind : Nat
  payload : List Nat
deriving Repr, DecidableEq

/-- C1's validity condition on a frame: stream kind 0, 1 or 2, payload
length under the 10 MB ceiling, payload made of bytes. -/
def Frame.valid (f : Frame) : Prop :=
  f.kind ≤ 2 ∧ f.payload.length < 10000000 ∧ ∀ b ∈ f.payload, b < 256

instance (f : Frame) : Decidable f.valid := by
  unfold Frame.valid
  infer_instance

/-- Wire form of a frame: kind byte, three zero bytes, 4-byte big-endian
payload length, payload. -/
def encodeFrame (f : Frame) : List Nat :=
  f.kind :: 0 :: 0 :: 0
    :: f.payload.length / 16777216 % 256 :: f.payload.length / 65536 % 256
    :: f.payload.length / 256 % 256 :: f.payload.length % 256 :: f.payload

/-- Wire form of a frame sequence. -/
def encodeFrames (fs : List Frame) : List Nat := (fs.map encodeFrame).join

/-- Big-endian round trip for lengths below `2^32`. -/
lemma be32_len {n : Nat} (h : n < 4294967296) :
    be32 (n / 16777216 % 256) (n / 65536 % 256) (n / 256 % 256) (n % 256) = n := by
  unfold be32
  omega

/-- `encodeFrames` on a cons, in header-byte form. -/
lemma encodeFrames_cons (f : Frame) (fs : List Frame) :
    encodeFrames (f :: fs)
      = f.kind :: 0 :: 0 :: 0
          :: f.payload.length / 16777216 % 256 :: f.payload.length / 65536 % 256
          :: f.payload.length / 256 % 256 :: f.payload.length % 256
          :: (f.payload ++ encodeFrames fs) := by
  simp [encodeFrames, encodeFrame]

/-- Defining equation of the fueled loop on a full header. -/
lemma demuxLoopF_cons (fuel b0 b1 b2 b3 b4 b5 b6 b7 : Nat) (rest : List Nat) :
    demuxLoopF (fuel + 1) (b0 :: b1 :: b2 :: b3 :: b4 :: b5 :: b6 :: b7 :: rest)
      = if 10000000 < be32 b4 b5 b6 b7 then []
        else if rest.length < be32 b4 b5 b6 b7 then []
        else
          lossyLines (rest.take (be32 b4 b5 b6 b7))
            ++ demuxLoopF fuel (rest.drop (be32 b4 b5 b6 b7)) := rfl

/-- The fueled loop consumes a valid frame sequence frame by frame. -/
lemma demuxLoopF_encode (fs : List Frame) : ∀ fuel : Nat,
    (encodeFrames fs).length ≤ fuel → (∀ f ∈ fs, f.valid) →
    demuxLoopF fuel (encodeFrames fs)
      = (fs.map (fun f => lossyLines f.payload)).join := by
  induction fs with
  | nil =>
    intro fuel _ _
    cases fuel <;> rfl
  | cons f fs ih =>
    intro fuel hf hval
    have hv := hval f (by simp)
    have hlen : (encodeFrames (f :: fs)).length
        = f.payload.length + (encodeFrames fs).length + 8 := by
      rw [encodeFrames_cons]
      simp
    obtain ⟨fuel2, rfl⟩ : ∃ m, fuel = m + 1 := ⟨fuel - 1, by omega⟩
    rw [encodeFrames_cons, demuxLoopF_cons]
    have hsz : be32 (f.payload.length / 16777216 % 256) (f.payload.length / 65536 % 256)
        (f.payload.length / 256 % 256) (f.payload.length % 256) = f.payload.length :=
      be32_len (by have := hv.2.1; omega)
    rw [hsz]
    rw [if_neg (by have := hv.2.1; omega)]
    rw [if_neg (by simp)]
    rw [List.take_left, List.drop_left]
    rw [ih fuel2 (by omega) (fun g hg => hval g (by simp [hg]))]
    simp

/-- C1: a byte stream that is the concatenation of valid multiplexed
frames (kind 0, 1 or 2, zero padding, big-endian length under the 10 MB
ceiling) demultiplexes to exactly each frame's payload split on line
boundaries, in frame order; zero frames emit nothing. -/
theorem demux_correctness (fs : List Frame) (hval : ∀ f ∈ fs, f.valid) :
    demux (encodeFrames fs) = (fs.map (fun f => lossyLines f.payload)).join := by
  cases fs with
  | nil => rfl
  | cons f fs =>
    have hv := hval f (by simp)
    rw [encodeFrames_cons, demux_cons]
    rw [if_pos ⟨hv.1, rfl, rfl, rfl⟩]
    have hsz : be32 (f.payload.length / 16777216 % 256) (f.payload.length / 65536 % 256)
        (f.payload.length / 256 % 256) (f.payload.length % 256) = f.payload.length :=
      be32_len (by have := hv.2.1; omega)
    rw [hsz]
    rw [if_pos hv.2.1]
    rw [if_neg (by simp)]
    rw [List.take_left, List.drop_left]
    rw [show demuxLoop (encodeFrames fs)
        = demuxLoopF (encodeFrames fs).length (encodeFrames fs) from rfl]
    rw [demuxLoopF_encode fs (encodeFrames fs).length le_rfl
      (fun g hg => hval g (by simp [hg]))]
    simp

/-- Witness for C1: two concrete frames (`"hi\n"` on stdout, `"!"` on
stderr) and the zero-frame stream, via `demux_correctness`. -/
theorem demux_correctness_witness :
    demux (encodeFrames [⟨1, [104, 105, 10]⟩, ⟨2, [33]⟩]) = [[104, 105], [33]]
      ∧ demux (encodeFrames []) = [] := by
  constructor
  · rw [demux_correctness _ (by decide)]
    decide
  · exact demux_correctness [] (by simp)

/-- Counterexample to C6 as stated: a stream whose *first* frame announces
an oversized payload (10 000 001 bytes) is not terminated — the
demultiplexer re-reads the following bytes as a fresh header and emits the
line `"hi"` from them. -/
theorem oversize_frame_counterexample :
    demux [1, 0, 0, 0, 0, 152, 150, 129, 1, 0, 0, 0, 0, 0, 0, 2, 104, 105]
        = [[104, 105]]
      ∧ ([[104, 105]] : List (List Nat)) ≠ [] := by
  exact ⟨by decide, by decide⟩

/-- C6 amended: inside the continuation loop (every frame after the first
header read) a payload length strictly above 10 000 000 ends the stream
with no further emission; but an oversized (≥ 10 000 000) *first* frame
only skips that frame's payload read and continues the loop at the first
payload byte as if it were the next header. -/
theorem oversize_frame (b0 b1 b2 b3 b4 b5 b6 b7 : Nat) (rest : List Nat) :
    (10000000 < be32 b4 b5 b6 b7 →
      demuxLoop (b0 :: b1 :: b2 :: b3 :: b4 :: b5 :: b6 :: b7 :: rest) = [])
    ∧ (b0 ≤ 2 → b1 = 0 → b2 = 0 → b3 = 0 → 10000000 ≤ be32 b4 b5 b6 b7 →
      demux (b0 :: b1 :: b2 :: b3 :: b4 :: b5 :: b6 :: b7 :: rest) = demuxLoop rest) := by
  constructor
  · intro h
    show demuxLoopF (rest.length + 7 + 1)
      (b0 :: b1 :: b2 :: b3 :: b4 :: b5 :: b6 :: b7 :: rest) = []
    rw [demuxLoopF_cons, if_pos h]
  · intro h0 h1 h2 h3 hsz
    rw [demux_cons, if_pos ⟨h0, h1, h2, h3⟩, if_neg (by omega)]

/-- Witness for C6 (amended): concrete oversized headers in both
positions, via `oversize_frame`. -/
theorem oversize_frame_witness :
    demuxLoop [1, 0, 0, 0, 0, 152, 150, 129, 104, 105] = []
      ∧ demux [1, 0, 0, 0, 0, 152, 150, 129, 104, 105] = demuxLoop [104, 105] := by
  constructor
  · exact (oversize_frame 1 0 0 0 0 152 150 129 [104, 105]).1 (by decide)
  · exact (oversize_frame 1 0 0 0 0 152 150 129 [104, 105]).2
      (by decide) rfl rfl rfl (by decide)

end LogStream

/-! ## Action Executor: result-string formatting and the worker loop

From `run_action_loop` in src/action.rs (lines 40-524; the inline copy in
src/main.rs lines 244-611 behaves identically for the properties below). -/

namespace ActionExec

/-- UTF-8 byte length of a Rust string modelled over its characters. -/
def byteLen (s : List Char) : Nat := (s.map Char.utf8Size).sum

/-- Rust byte slicing `&s[..n]`: the characters covering exactly the first
`n` UTF-8 bytes.  Rust panics when `n` is past the end or not on a
character boundary; the panic is modelled as `none`. -/
def sliceBytes : List Char → Nat → Option (List Char)
  | _, 0 => some []
  | [], _ + 1 => none
  | c :: cs, n + 1 =>
    if c.utf8Size ≤ n + 1 then (sliceBytes cs (n + 1 - c.utf8Size)).map (c :: ·)
    else none

/-- `Action::Start` result formatting (src/action.rs lines 147-152, equally
src/main.rs lines 342-347): on success the message embeds `&id[..12]`. -/
def startResult (id : List Char) : Except (List Char) Unit → Option (List Char)
  | .ok _ => (sliceBytes id 12).map (fun p => "Started container ".data ++ p)
  | .error e => some ("Failed to start: ".data ++ e)

/-- `Action::Stop` result formatting (src/action.rs lines 153-158). -/
def stopResult (id : List Char) : Except (List Char) Unit → Option (List Char)
  | .ok _ => (sliceBytes id 12).map (fun p => "Stopped container ".data ++ p)
  | .error e => some ("Failed to stop: ".data ++ e)

/-- `Action::Restart` result formatting (src/action.rs lines 159-164). -/
def restartResult (id : List Char) : Except (List Char) Unit → Option (List Char)
  | .ok _ => (sliceBytes id 12).map (fun p => "Restarted container ".data ++ p)
  | .error e => some ("Failed to restart: ".data ++ e)

/-- A successful byte slice needs at least that many bytes. -/
lemma sliceBytes_isSome_le {s : List Char} {n : Nat}
    (h : (sliceBytes s n).isSome = true) : n ≤ byteLen s := by
  induction s generalizing n with
  | nil =>
    cases n with
    | zero => exact Nat.zero_le _
    | succ m => exact absurd h (by simp [sliceBytes])
  | cons c cs ih =>
    cases n with
    | zero => exact Nat.zero_le _
    | succ m =>
      unfold sliceBytes at h
      by_cases hle : c.utf8Size ≤ m + 1
      · rw [if_pos hle] at h
        have := ih (show (sliceBytes cs (m + 1 - c.utf8Size)).isSome = true by simpa using h)
        have hb : byteLen (c :: cs) = c.utf8Size + byteLen cs := by
          simp [byteLen]
        omega
      · rw [if_neg hle] at h
        exact absurd h (by simp)

/-- C10: the `Start`/`Stop`/`Restart` success messages slice the first 12
bytes of the container id, which is in bounds only when the id has at
least 12 bytes; with a 3-byte id the formatting panics (no result string)
instead of returning one, on all three arms. -/
theorem short_id_slice_panics :
    (∀ id : List Char, (sliceBytes id 12).isSome = true → 12 ≤ byteLen id)
    ∧ startResult ("abc".data) (.ok ()) = none
    ∧ stopResult ("abc".data) (.ok ()) = none
    ∧ restartResult ("abc".data) (.ok ()) = none := by
  exact ⟨fun id h => sliceBytes_isSome_le h, by decide, by decide, by decide⟩

/-- Witness for C10: a 12-byte id slices successfully and the bound is
met, via `short_id_slice_panics`. -/
theorem short_id_slice_panics_witness :
    12 ≤ byteLen ("0123456789ab".data)
      ∧ startResult ("0123456789abcdef".data) (.ok ())
        = some ("Started container 0123456789ab".data) := by
  constructor
  · exact short_id_slice_panics.1 ("0123456789ab".data) (by decide)
  · decide

/-- One observable effect of a command arm other than the loop's own final
send: a daemon call, a progress send on the results channel, a janitor-item
publish, a refresh signal, or a build-log line. -/
inductive ArmEvent
  | daemonCall (desc : List Char)
  | sendProgress (msg : List Char)
  | sendJanitorItems
  | sendRefresh
  | sendLog (msg : List Char)
deriving Repr, DecidableEq

/-- An event of the worker's trace: an arm effect, or the loop-bottom
`tx_action_result.send(res)` of the command's final result string. -/
inductive Event
  | arm (e : ArmEvent)
  | sendFinal (msg : List Char)
deriving Repr, DecidableEq

/-- The `Action` command enum of src/action.rs lines 8-38. -/
inductive Action
  | start (id : List Char)
  | stop (id : List Char)
  | restart (id : List Char)
  | create (image name ports env cpu memory restartPolicy : List Char)
  | build (tag path : List Char) (mount : Bool)
  | composeUp (path : List Char) (overridePath : Option (List Char))
  | replace (oldId image name ports env cpu memory restartPolicy : List Char)
  | scanJanitor
  | cleanJanitor (count : Nat)
  | delete (id : List Char)
  | refreshContainers
deriving Repr, DecidableEq

/-- The effects and final result string of running one command's arm; the
per-arm daemon interaction is abstracted behind this record because it is
I/O against the engine daemon (and, for `Build`/`ComposeUp`, subprocesses).
The loop structure below is the part the claim is about. -/
structure CommandExec where
  events : List ArmEvent
  result : List Char

/-- The single-consumer worker of `run_action_loop` (src/action.rs lines
49-523): `while let Some(action) = rx_action.recv().await` takes commands
one at a time in queue order, runs the command's arm to completion, then
emits its final result string, then recurses on the rest of the queue. -/
def runActionLoop (exec : Action → CommandExec) : List Action → List Event
  | [] => []
  | a :: rest =>
    (exec a).events.map Event.arm
      ++ Event.sendFinal (exec a).result :: runActionLoop exec rest

/-- The same trace with each event tagged by its command's queue index. -/
def runTagged (exec : Action → CommandExec) (i : Nat) : List Action → List (Nat × Event)
  | [] => []
  | a :: rest =>
    ((exec a).events.map Event.arm ++ [Event.sendFinal (exec a).result]).map
        (fun e => (i, e))
      ++ runTagged exec (i + 1) rest

/-- The final result strings of a trace, in emission order. -/
def finalResults (tr : List Event) : List (List Char) :=
  tr.filterMap (fun e => match e with | Event.sendFinal m => some m | _ => none)

/-- Every tag in the trace of commands numbered from `i` is at least `i`. -/
lemma runTagged_tag_ge (exec : Action → CommandExec) :
    ∀ (cmds : List Action) (i : Nat), ∀ x ∈ runTagged exec i cmds, i ≤ x.1 := by
  intro cmds
  induction cmds with
  | nil => intro i x hx; exact absurd hx (by simp [runTagged])
  | cons a rest ih =>
    intro i x hx
    unfold runTagged at hx
    rcases List.mem_append.mp hx with hx | hx
    · obtain ⟨e, _, he⟩ := List.mem_map.mp hx
      rw [← he]
    · have := ih (i + 1) x hx
      omega

/-- C8: the Action Executor's trace is serial — the final result strings
appear exactly in enqueue order, the per-command event blocks never
interleave (tags are nondecreasing along the trace, and each command's
final send closes its own block), and the tagged trace projects back to
the plain trace. -/
theorem action_ordering (exec : Action → CommandExec) (cmds : List Action) :
    finalResults (runActionLoop exec cmds) = cmds.map (fun a => (exec a).result)
    ∧ (∀ i : Nat, List.Pairwise (fun x y => x.1 ≤ y.1) (runTagged exec i cmds))
    ∧ runActionLoop exec cmds = (runTagged exec 0 cmds).map Prod.snd := by
  refine ⟨?_, ?_, ?_⟩
  · induction cmds with
    | nil => rfl
    | cons a rest ih =>
      unfold runActionLoop finalResults
      rw [List.filterMap_append]
      have harm : ((exec a).events.map Event.arm).filterMap
          (fun e => match e with | Event.sendFinal m => some m | _ => none) = [] := by
        rw [List.filterMap_map]
        exact List.filterMap_eq_nil.mpr (fun e _ => rfl)
      rw [harm, List.nil_append, List.filterMap_cons]
      simp only [List.map_cons]
      exact congrArg _ ih
  · intro i
    induction cmds generalizing i with
    | nil => simp [runTagged]
    | cons a rest ih =>
      unfold runTagged
      rw [List.pairwise_append]
      refine ⟨?_, ih (i + 1), ?_⟩
      · rw [List.pairwise_map]
        exact List.Pairwise.imp (fun _ => le_rfl) (List.pairwise_of_forall (fun _ _ => trivial))
      · intro x hx y hy
        obtain ⟨e, _, he⟩ := List.mem_map.mp hx
        have hyge := runTagged_tag_ge exec rest (i + 1) y hy
        rw [← he]
        simp only []
        omega
  · have key : ∀ (cmds2 : List Action) (i : Nat),
        runActionLoop exec cmds2 = (runTagged exec i cmds2).map Prod.snd := by
      intro cmds2
      induction cmds2 with
      | nil => intro i; rfl
      | cons a rest ih =>
        intro i
        unfold runActionLoop runTagged
        rw [List.map_append, List.map_map]
        rw [ih (i + 1)]
        simp
    exact key cmds 0

end ActionExec

end Docktop
